import Mathlib

/-!
Shallow embedding of the ragsaurus sequential multi-agent orchestration core.

The embedded code is `EnhanceMetadataTask` (`execute`, `processFileSequentially`,
`runAgentSafely`, `calculateConsolidatedRAGScore`, `extractAddedFields`,
`generateWorkflowSummary`, `updateAgentStats`, `initializeAgentStats`) together
with `DocumentProcessingTeam.processDocuments`.

Modelling conventions:
* JS numbers holding scores are modelled as `Int`; durations as `Nat`.
* JS objects whose fields may be absent are modelled with `Option` fields.
* The file system is a map from paths to contents; the paths the orchestration
  core touches are split by constructor into the authoritative document path and
  temporary working copies under `.temp-agent-processing`, which makes the
  uniqueness of temp names structural instead of string-prefix reasoning.
* An agent (`agent.analyzeContent(handle, content, {})`) is modelled by a
  deterministic function of its content argument: the returned raw result or
  thrown error, plus its durable effect on the file at the handle path it was
  given (the repository's chunking agent writes its handle file back).
* Environmental failure of isolation setup (`fs.ensureDir`/`fs.writeFile`
  throwing) and the `Date.now()`-based temp file name and timings are inputs
  of each wrapper invocation (`CallEnv`).
* `console.log` output is not tracked, except that the run logger's captured
  entries are modelled on the batch-validation failure path, where the code
  emits no captured entry between logger initialization and the thrown
  configuration error (the catch handler then logs the fatal error).
* The GitHub PR publisher is an external collaborator; its outcome is attached
  to the summary under a separate field and never changes the counted fields,
  so it is left out of the summary model.
-/

/-- Math.round(a / b) for integer a and positive integer b, as exact rational
rounding with ties toward positive infinity: floor((2a + b) / (2b)). -/
def jsRound (a b : Int) : Int := Int.fdiv (2 * a + b) (2 * b)

/-- Math.round(a / b) on naturals (used for averageProcessingTime). -/
def jsRoundNat (a b : Nat) : Nat := (2 * a + b) / (2 * b)

/-- Number of maximal whitespace runs in a character list; the flag records
whether we are currently inside a run. -/
def wsRuns : List Char → Bool → Nat
  | [], _ => 0
  | c :: rest, inRun =>
    if c.isWhitespace then (if inRun then 0 else 1) + wsRuns rest true
    else wsRuns rest false

/-- JS `content.split(/\s+/).length`: one more than the number of maximal
whitespace runs (leading and trailing whitespace produce empty tokens). -/
def jsWordCount (s : String) : Nat := 1 + wsRuns s.toList false

/-- Paths touched by the orchestration core: the authoritative document path
(`path.join(process.cwd(), fileInfo.path)`), temporary working copies under
`.temp-agent-processing`, and anything else. -/
inductive FPath where
  | auth (p : String)
  | temp (name : String)
  | other (p : String)
deriving DecidableEq

/-- File store state: contents addressed by path. -/
abbrev FS := FPath → Option String

/-- fs.writeFile. -/
def fsWrite (fs : FS) (p : FPath) (c : String) : FS :=
  fun q => if q = p then some c else fs q

/-- fs.remove of a single file. -/
def fsRemove (fs : FS) (p : FPath) : FS :=
  fun q => if q = p then none else fs q

/-- fs.remove(tempDir): recursively removes the temp directory, hence every
temporary working copy. -/
def fsRemoveTempDir (fs : FS) : FS :=
  fun q => match q with
  | .temp _ => none
  | _ => fs q

/-- Observable operations performed during orchestration: file reads, writes
and removals by the orchestration core, and agent invocations with the handle
path and content argument they were given. -/
inductive Ev where
  | read (p : FPath)
  | write (p : FPath)
  | removeFile (p : FPath)
  | removeTempDir
  | agentCall (handle : FPath) (contentArg : String)
deriving DecidableEq

/-- The enhancedMetadata payload as seen by the orchestrator: the four
recognized score fields, plus the names of whatever other keys the agent
returned (their values are opaque to the orchestrator). -/
structure Metadata where
  ragScore : Option Int := none
  chunkingScore : Option Int := none
  validationScore : Option Int := none
  seoScore : Option Int := none
  extraKeys : List String := []
deriving DecidableEq

/-- Raw value returned (or error thrown) by `agent.analyzeContent`. -/
structure AgentRaw where
  restructuredContent : Option String := none
  improvements : Option (List String) := none
  enhancedMetadata : Option Metadata := none
deriving DecidableEq

/-- Value returned by `runAgentSafely`: the raw agent result with the content
field set (`{...result, content}`). -/
structure WrappedResult where
  content : String
  restructuredContent : Option String := none
  improvements : Option (List String) := none
  enhancedMetadata : Option Metadata := none
deriving DecidableEq

/-- `{...result, content: c}`. -/
def withContent (r : AgentRaw) (c : String) : WrappedResult :=
  { content := c, restructuredContent := r.restructuredContent,
    improvements := r.improvements, enhancedMetadata := r.enhancedMetadata }

/-- Durable effect of one agent invocation on the file at the handle path it
was given: leave it alone, overwrite it, or delete it. -/
inductive FileEffect where
  | keep
  | write (c : String)
  | delete
deriving DecidableEq

/-- Model of one agent: name, role, and `analyzeContent` behaviour as a
deterministic function of the content argument. -/
structure Agent where
  name : String
  role : String
  raw : String → Except String AgentRaw
  effect : String → FileEffect

/-- Environment of one wrapper invocation: whether isolation setup
(`fs.ensureDir`/`fs.writeFile`) throws, the generated unique temp file name,
and the measured processing time. -/
structure CallEnv where
  isolationFails : Bool := false
  tempName : String := "t"
  time : Nat := 0

/-- Apply an agent's durable effect at a path. -/
def applyEffect (fs : FS) (p : FPath) : FileEffect → FS
  | .keep => fs
  | .write c => fsWrite fs p c
  | .delete => fsRemove fs p

/-- Output of one `runAgentSafely` invocation: the returned result or thrown
error, the file store afterwards, and the operations performed. -/
structure SafeOut where
  result : Except String WrappedResult
  fs : FS
  evs : List Ev

/-- Fallback branch of `runAgentSafely` (lines 321-330): call the agent
directly with the original parameters, ignore file changes, and wrap a second
failure as `Agent <name> failed: <message>`. -/
def fallbackCall (a : Agent) (filePath : FPath) (content : String) (fs : FS)
    (pre : List Ev) : SafeOut :=
  match a.raw content with
  | .ok r =>
      { result := .ok (withContent r content),
        fs := applyEffect fs filePath (a.effect content),
        evs := pre ++ [.agentCall filePath content] }
  | .error e =>
      { result := .error ("Agent " ++ a.name ++ " failed: " ++ e),
        fs := fs,
        evs := pre ++ [.agentCall filePath content] }

/-- `EnhanceMetadataTask.runAgentSafely` (lines 267-332). Writes the current
content to a unique temp file, calls the agent on it, reads the temp file back
(defaulting to the input content if unreadable), and removes the temp file.
Any throw before or during the agent call lands in the catch handler, which
removes the temp directory and retries the agent once directly. -/
def runAgentSafely (a : Agent) (filePath : FPath) (content : String)
    (env : CallEnv) (fs : FS) : SafeOut :=
  let tempFilePath := FPath.temp env.tempName
  if env.isolationFails then
    fallbackCall a filePath content (fsRemoveTempDir fs) [.removeTempDir]
  else
    let fs1 := fsWrite fs tempFilePath content
    match a.raw content with
    | .ok r =>
        let fs2 := applyEffect fs1 tempFilePath (a.effect content)
        let resultContent := match fs2 tempFilePath with
          | some c => c
          | none => content
        { result := .ok (withContent r resultContent),
          fs := fsRemove fs2 tempFilePath,
          evs := [.write tempFilePath, .agentCall tempFilePath content,
                  .read tempFilePath, .removeFile tempFilePath] }
    | .error _ =>
        fallbackCall a filePath content (fsRemoveTempDir fs1)
          [.write tempFilePath, .agentCall tempFilePath content, .removeTempDir]

/-- Per-agent statistics counters. -/
structure AgentStat where
  successful : Nat := 0
  failed : Nat := 0
  totalProcessingTime : Nat := 0
  averageProcessingTime : Nat := 0
deriving DecidableEq

/-- Fresh zeroed counters. -/
def AgentStat.init : AgentStat := {}

/-- Statistics object keyed by agent name. -/
abbrev AgentStats := List (String × AgentStat)

/-- Lookup of `agentStats[agentName]`. -/
def statLookup : AgentStats → String → Option AgentStat
  | [], _ => none
  | (n, st) :: rest, name => if n = name then some st else statLookup rest name

/-- Assignment `agentStats[agentName] = v`. -/
def statInsert : AgentStats → String → AgentStat → AgentStats
  | [], name, v => [(name, v)]
  | (n, st) :: rest, name, v =>
      if n = name then (n, v) :: rest else (n, st) :: statInsert rest name v

/-- `EnhanceMetadataTask.updateAgentStats` (lines 491-511). -/
def updateAgentStats (stats : AgentStats) (name : String) (success : Bool)
    (t : Nat) : AgentStats :=
  let cur := (statLookup stats name).getD AgentStat.init
  let upd := if success then
      let s1 := cur.successful + 1
      let tot := cur.totalProcessingTime + t
      { cur with
        successful := s1
        totalProcessingTime := tot
        averageProcessingTime := jsRoundNat tot s1 }
    else { cur with failed := cur.failed + 1 }
  statInsert stats name upd

/-- `EnhanceMetadataTask.initializeAgentStats` (lines 516-527). -/
def initializeAgentStats (agents : List Agent) : AgentStats :=
  agents.foldl (fun acc a => statInsert acc a.name AgentStat.init) []

/-- One contentEvolution entry; the initial `original` entry carries no
wordCount field. -/
structure Snapshot where
  stage : String
  content : String
  wordCount : Option Nat := none
deriving DecidableEq

/-- One per (document, agent) entry of `agentResults`. -/
structure AgentInvocationResult where
  agentName : String
  agentRole : String
  result : Option WrappedResult
  error : Option String := none
  processingTime : Nat
  contentModified : Bool
  sequencePosition : Nat
deriving DecidableEq

/-- Mutable locals of `processFileSequentially` while the agent loop runs,
together with the file store and the operation trace. -/
structure LoopState where
  currentContent : String
  contentEvolution : List Snapshot
  agentResults : List AgentInvocationResult
  allImprovements : List String
  stats : AgentStats
  fs : FS
  evs : List Ev

/-- Content adopted for the next agent (lines 183-193): the returned content
when it is truthy (non-empty) and differs from the current content, otherwise
the restructuredContent under the same test, otherwise the current content. -/
def jsNewContent (result : WrappedResult) (currentContent : String) : String :=
  if result.content ≠ "" ∧ result.content ≠ currentContent then
    result.content
  else match result.restructuredContent with
    | some rc => if rc ≠ "" ∧ rc ≠ currentContent then rc else currentContent
    | none => currentContent

/-- Body of the per-agent loop in `processFileSequentially` (lines 152-228),
given the output `w` of the wrapper invocation: on success update statistics,
collect improvements, adopt the new content, append a contentEvolution entry
and advance currentContent when the adopted content differs, then record the
invocation result; on a wrapper throw record a failed result and the failure
statistic and continue. The contentModified flag is computed, as in the code,
after currentContent has already been advanced. -/
def stepAgentWith (st : LoopState) (i : Nat) (a : Agent) (env : CallEnv)
    (w : SafeOut) : LoopState :=
  match w.result with
  | .ok result =>
      let stats1 := updateAgentStats st.stats a.name true env.time
      let improvements1 := match result.improvements with
        | some l => st.allImprovements ++ l
        | none => st.allImprovements
      let newContent := jsNewContent result st.currentContent
      let evo1 :=
        if newContent ≠ st.currentContent then
          st.contentEvolution ++ [{ stage := a.name
                                    content := newContent
                                    wordCount := some (jsWordCount newContent) }]
        else st.contentEvolution
      let current1 :=
        if newContent ≠ st.currentContent then newContent else st.currentContent
      { currentContent := current1,
        contentEvolution := evo1,
        agentResults := st.agentResults ++ [{ agentName := a.name
                                              agentRole := a.role
                                              result := some result
                                              error := none
                                              processingTime := env.time
                                              contentModified := decide (newContent ≠ current1)
                                              sequencePosition := i + 1 }],
        allImprovements := improvements1,
        stats := stats1, fs := w.fs, evs := st.evs ++ w.evs }
  | .error e =>
      { currentContent := st.currentContent,
        contentEvolution := st.contentEvolution,
        agentResults := st.agentResults ++ [{ agentName := a.name
                                              agentRole := a.role
                                              result := none
                                              error := some e
                                              processingTime := 0
                                              contentModified := false
                                              sequencePosition := i + 1 }],
        allImprovements := st.allImprovements,
        stats := updateAgentStats st.stats a.name false 0,
        fs := w.fs, evs := st.evs ++ w.evs }

/-- One iteration of the agent loop: invoke the wrapper on the current content
and fold its output into the loop state. -/
def stepAgent (fullPath : FPath) (st : LoopState) (i : Nat) (a : Agent)
    (env : CallEnv) : LoopState :=
  stepAgentWith st i a env (runAgentSafely a fullPath st.currentContent env st.fs)

/-- The `for (let i = 0; ...)` loop of `processFileSequentially` over the
agent list, carrying the loop index. Each agent comes paired with the
environment of its wrapper invocation. -/
def runAgents (fullPath : FPath) : LoopState → Nat → List (Agent × CallEnv) → LoopState
  | st, _, [] => st
  | st, i, p :: rest => runAgents fullPath (stepAgent fullPath st i p.1 p.2) (i + 1) rest

/-- Chained `||` fallback over score fields; a present zero is falsy in JS and
falls through to the next alias. -/
def jsOrScore (o : Option Int) (k : Int) : Int :=
  match o with
  | some s => if s = 0 then k else s
  | none => k

/-- Per-result score `metadata.ragScore || metadata.chunkingScore ||
metadata.validationScore || metadata.seoScore || 75` (lines 343-348). -/
def resultScoreCode (m : Metadata) : Int :=
  jsOrScore m.ragScore (jsOrScore m.chunkingScore
    (jsOrScore m.validationScore (jsOrScore m.seoScore 75)))

/-- `EnhanceMetadataTask.calculateConsolidatedRAGScore` (lines 337-357). -/
def calculateConsolidatedRAGScore (agentResults : List AgentInvocationResult) : Int :=
  let scores := agentResults.foldl (fun acc r =>
    match r.result with
    | some w =>
        match w.enhancedMetadata with
        | some m => let s := resultScoreCode m; if 0 < s then acc ++ [s] else acc
        | none => acc
    | none => acc) []
  if 0 < scores.length then jsRound (scores.foldl (· + ·) 0) scores.length else 75

/-- `Object.keys` of an enhancedMetadata payload: names of the present score
fields plus the other keys. -/
def metadataKeys (m : Metadata) : List String :=
  (if m.ragScore.isSome then ["ragScore"] else []) ++
  (if m.chunkingScore.isSome then ["chunkingScore"] else []) ++
  (if m.validationScore.isSome then ["validationScore"] else []) ++
  (if m.seoScore.isSome then ["seoScore"] else []) ++ m.extraKeys

/-- `EnhanceMetadataTask.extractAddedFields` (lines 362-376): set union of
metadata keys across successful results, excluding `enhanced_` markers, in
first-insertion order. -/
def extractAddedFields (agentResults : List AgentInvocationResult) : List String :=
  agentResults.foldl (fun acc r =>
    match r.result with
    | some w =>
        match w.enhancedMetadata with
        | some m => (metadataKeys m).foldl (fun acc2 k =>
            if k.startsWith "enhanced_" then acc2
            else if k ∈ acc2 then acc2 else acc2 ++ [k]) acc
        | none => acc
    | none => acc) []

/-- One entry of the `processedFiles` list handed to the task. -/
structure FileInfo where
  path : String
  title : String
deriving DecidableEq

/-- Document Enhancement record returned per document (lines 249-261). -/
structure Enhancement where
  filePath : String
  relativePath : String
  originalContent : String
  finalContent : String
  contentEvolution : List Snapshot
  agentResults : List AgentInvocationResult
  improvements : List String
  ragScore : Int
  addedFields : List String
  totalProcessingTime : Nat
deriving DecidableEq

/-- Output of one `processFileSequentially` call. -/
structure FileOut where
  enhancement : Enhancement
  stats : AgentStats
  fs : FS
  evs : List Ev

/-- Initial loop state after the single authoritative read (lines 138-149). -/
def initLoopState (originalContent : String) (stats : AgentStats) (fs : FS)
    (fullPath : FPath) : LoopState :=
  { currentContent := originalContent,
    contentEvolution := [{ stage := "original", content := originalContent }],
    agentResults := [], allImprovements := [],
    stats := stats, fs := fs, evs := [.read fullPath] }

/-- `EnhanceMetadataTask.processFileSequentially` (lines 133-262). Reads the
authoritative content once, runs every agent in order through the wrapper, and
assembles the Document Enhancement. The only throw is a failed authoritative
read. -/
def processFileSequentially (fileInfo : FileInfo) (cwd : String)
    (pairs : List (Agent × CallEnv)) (stats : AgentStats) (fs : FS) :
    Except String FileOut :=
  let fullPath := FPath.auth (cwd ++ "/" ++ fileInfo.path)
  match fs fullPath with
  | none => .error ("ENOENT: " ++ cwd ++ "/" ++ fileInfo.path)
  | some originalContent =>
      let stF := runAgents fullPath (initLoopState originalContent stats fs fullPath) 0 pairs
      .ok {
        enhancement := {
          filePath := cwd ++ "/" ++ fileInfo.path,
          relativePath := fileInfo.path,
          originalContent := originalContent,
          finalContent := stF.currentContent,
          contentEvolution := stF.contentEvolution,
          agentResults := stF.agentResults,
          improvements := stF.allImprovements,
          ragScore := calculateConsolidatedRAGScore stF.agentResults,
          addedFields := extractAddedFields stF.agentResults,
          totalProcessingTime := stF.agentResults.foldl
            (fun s r => s + r.processingTime) 0 },
        stats := stF.stats, fs := stF.fs, evs := stF.evs }

/-- Batch summary. Fields that the team coordinator's early-exit summary does
not set are Options. -/
structure Summary where
  totalFiles : Nat
  successful : Nat
  failed : Option Nat := none
  errors : Nat
  averageRagScore : Int
  agentCount : Nat
  agentCollaborations : Option Nat := none
  collaborationEffectiveness : Option Nat := none
  totalImprovements : Option Nat := none
  totalProcessingTime : Option Nat := none
  skipped : Option Nat := none
  message : Option String := none
deriving DecidableEq

/-- `EnhanceMetadataTask.generateWorkflowSummary` (lines 436-486). -/
def generateWorkflowSummary (enhancements : List Enhancement)
    (errors : List (String × String)) (agentCount : Nat) : Summary :=
  let successful := enhancements.length
  let failed := errors.length
  let ragScores := (enhancements.map (fun e => e.ragScore)).filter
    (fun s => decide (0 < s))
  let averageRagScore :=
    if 0 < ragScores.length then
      jsRound (ragScores.foldl (· + ·) 0) ragScores.length
    else 0
  { totalFiles := successful + failed,
    successful := successful,
    failed := some failed,
    errors := failed,
    averageRagScore := averageRagScore,
    agentCount := agentCount,
    agentCollaborations := some (successful * agentCount),
    collaborationEffectiveness := some (if 0 < successful then 100 else 0),
    totalImprovements := some (enhancements.foldl
      (fun acc e => acc + e.improvements.length) 0),
    totalProcessingTime := some (enhancements.foldl
      (fun acc e => acc + e.totalProcessingTime) 0) }

/-- Structured result of a batch: the success shape or the fatal-error shape
returned by `execute`'s catch handler. -/
inductive ExecResult where
  | ok (summary : Summary) (enhancements : List Enhancement)
      (errors : List (String × String)) (agentStatistics : AgentStats)
  | fatal (error : String)
deriving DecidableEq

/-- Output of `execute`: the structured result, the run logger's captured
entries, the file store, and the operation trace. -/
structure ExecOut where
  result : ExecResult
  log : List String
  fs : FS
  evs : List Ev

/-- Message of the thrown error for an empty document list (`typeof []` is
`object`). -/
def invalidFilesMsg : String := "Invalid processedFiles: object"

/-- Message of the thrown error for an empty agent list. -/
def noAgentsMsg : String := "No agents available for processing"

/-- The run logger's own initialization entry (timestamp and log path elided). -/
def initLogEntry : String := "[Run Logger] Capturing console output"

/-- Captured entry written by `execute`'s catch handler. -/
def fatalLogEntry (msg : String) : String :=
  "[Multi-Agent Task] Fatal error: " ++ msg

/-- Per-file step of `execute`'s document loop (lines 61-87): push the
enhancement, or catch the per-document throw and push an error entry. -/
def execStep (cwd : String) (agents : List Agent) (envOf : Nat → Nat → CallEnv)
    (acc : List Enhancement × List (String × String) × AgentStats × FS × List Ev)
    (jf : Nat × FileInfo) :
    List Enhancement × List (String × String) × AgentStats × FS × List Ev :=
  let (enhs, errs, stats, fs, evs) := acc
  let pairs := agents.enum.map (fun p => (p.2, envOf jf.1 p.1))
  match processFileSequentially jf.2 cwd pairs stats fs with
  | .ok out => (enhs ++ [out.enhancement], errs, out.stats, out.fs, evs ++ out.evs)
  | .error e => (enhs, errs ++ [(jf.2.title, e)], stats, fs, evs)

/-- `EnhanceMetadataTask.execute` (lines 27-127). Initializes the run logger,
validates inputs (throwing before any statistics object exists or any document
is touched), then processes every file sequentially and assembles the summary.
`envOf j i` is the environment of the wrapper invocation for document `j` and
agent `i`. -/
def execute (cwd : String) (agents : List Agent) (envOf : Nat → Nat → CallEnv)
    (processedFiles : List FileInfo) (fs : FS) : ExecOut :=
  let log0 := [initLogEntry]
  if processedFiles.length = 0 then
    { result := .fatal invalidFilesMsg,
      log := log0 ++ [fatalLogEntry invalidFilesMsg], fs := fs, evs := [] }
  else if agents.length = 0 then
    { result := .fatal noAgentsMsg,
      log := log0 ++ [fatalLogEntry noAgentsMsg], fs := fs, evs := [] }
  else
    let stats0 := initializeAgentStats agents
    let folded := processedFiles.enum.foldl (execStep cwd agents envOf)
      ([], [], stats0, fs, [])
    let summary := generateWorkflowSummary folded.1 folded.2.1 agents.length
    { result := .ok summary folded.1 folded.2.1 folded.2.2.1,
      log := log0, fs := folded.2.2.2.1, evs := folded.2.2.2.2 }

/-- One discovered file as the team coordinator sees it. -/
structure TeamFile where
  path : String
  title : String
  needsEnhancement : Bool
deriving DecidableEq

/-- Forget the coordinator-level flag. -/
def toFileInfo (tf : TeamFile) : FileInfo := { path := tf.path, title := tf.title }

/-- Early-exit message of the coordinator. -/
def earlyMessage : String := "All files already enhanced within 24 hours"

/-- `DocumentProcessingTeam.processDocuments` (lines 170-255): filter files
needing enhancement, return the early summary when none do, otherwise run the
task and merge the skipped-file information into its summary (overriding
totalFiles and agentCount). The early-exit return carries no statistics. -/
def processDocuments (cwd : String) (agents : List Agent)
    (envOf : Nat → Nat → CallEnv) (processedFiles : List TeamFile) (fs : FS) :
    ExecResult :=
  let filesToEnhance := processedFiles.filter (fun f => f.needsEnhancement)
  let skippedFiles := processedFiles.filter (fun f => !f.needsEnhancement)
  if filesToEnhance.length = 0 then
    .ok { totalFiles := processedFiles.length, successful := 0,
          skipped := some skippedFiles.length, errors := 0,
          averageRagScore := 0, agentCount := agents.length,
          message := some earlyMessage } [] [] []
  else
    let out := execute cwd agents envOf (filesToEnhance.map toFileInfo) fs
    match out.result with
    | .ok summary enhs errs stats =>
        .ok { summary with
              skipped := some skippedFiles.length
              totalFiles := processedFiles.length
              agentCount := agents.length } enhs errs stats
    | .fatal e => .fatal e

/-- Reading of claim C3 as stated (for comparison with the source function,
not translated from the source): a result's score is the first PRESENT field
in the preference order, defaulting to 75 when none is present, averaged over
all successful results. -/
def claimedPerResultScore (m : Option Metadata) : Int :=
  match m with
  | some md =>
      (md.ragScore <|> md.chunkingScore <|> md.validationScore <|> md.seoScore).getD 75
  | none => 75

/-- Consolidated score as claim C3 states it. -/
def claimedConsolidatedScore (rs : List AgentInvocationResult) : Int :=
  let scores := rs.filterMap (fun r =>
    r.result.map (fun w => claimedPerResultScore w.enhancedMetadata))
  if 0 < scores.length then jsRound (scores.foldl (· + ·) 0) scores.length else 75

/-- First field in the alias chain that is present and nonzero (a present zero
is falsy in JS and falls through). -/
def firstNonzeroScore : List (Option Int) → Option Int
  | [] => none
  | none :: rest => firstNonzeroScore rest
  | some s :: rest => if s = 0 then firstNonzeroScore rest else some s

/-- Amended per-result score: first present nonzero alias, else 75. -/
def perResultScoreAmended (m : Metadata) : Int :=
  (firstNonzeroScore [m.ragScore, m.chunkingScore, m.validationScore, m.seoScore]).getD 75

/-- Amended collected-score list: successful results carrying an
enhancedMetadata payload contribute their per-result score when positive. -/
def collectedScoresAmended (rs : List AgentInvocationResult) : List Int :=
  rs.filterMap (fun r =>
    match r.result with
    | some w =>
        match w.enhancedMetadata with
        | some m =>
            if 0 < perResultScoreAmended m then some (perResultScoreAmended m)
            else none
        | none => none
    | none => none)

/-- Amended consolidated score: rounded mean of the collected scores, 75 when
none were collected. -/
def consolidatedScoreAmended (rs : List AgentInvocationResult) : Int :=
  let scores := collectedScoresAmended rs
  if 0 < scores.length then jsRound (scores.foldl (· + ·) 0) scores.length else 75

/-- Summary of a structured batch result, when it has one. -/
def execSummary : ExecResult → Option Summary
  | .ok s _ _ _ => some s
  | .fatal _ => none

/-- Test agent that changes nothing and returns an empty raw result. -/
def keepAgent (nm : String) : Agent :=
  { name := nm, role := "role", raw := fun _ => .ok {}, effect := fun _ => .keep }

/-- Test agent that overwrites its handle file with a fixed value. -/
def writeAgent (nm out : String) : Agent :=
  { name := nm, role := "role", raw := fun _ => .ok {}, effect := fun _ => .write out }

/-- Test agent whose analyzeContent always throws. -/
def throwAgent (nm : String) : Agent :=
  { name := nm, role := "role", raw := fun _ => .error "boom", effect := fun _ => .keep }

/-- Test agent that deletes its handle file. -/
def deleteAgent (nm : String) : Agent :=
  { name := nm, role := "role", raw := fun _ => .ok {}, effect := fun _ => .delete }

/-- File store holding exactly one file. -/
def fsSingle (p : FPath) (c : String) : FS := fun q => if q = p then some c else none

/-- Default wrapper environment: isolation succeeds. -/
def env0 : CallEnv := {}

/-- Wrapper environment whose isolation setup throws. -/
def envIso : CallEnv := { isolationFails := true }

/-- Successful invocation result carrying a given metadata payload. -/
def scoredResult (m : Metadata) : AgentInvocationResult :=
  { agentName := "a", agentRole := "r",
    result := some { content := "c", enhancedMetadata := some m },
    processingTime := 0, contentModified := false, sequencePosition := 1 }

/-- Loop state reached after running a prefix of the agent list on a document
(used to state properties of the moment a later agent runs). -/
def midState (fileInfo : FileInfo) (cwd : String) (pre : List (Agent × CallEnv))
    (stats : AgentStats) (fs : FS) (o : String) : LoopState :=
  runAgents (FPath.auth (cwd ++ "/" ++ fileInfo.path))
    (initLoopState o stats fs (FPath.auth (cwd ++ "/" ++ fileInfo.path))) 0 pre

/-! ### Basic lemmas -/

theorem get?_append_cons {α : Type} (l1 : List α) (x : α) (l2 : List α) :
    (l1 ++ x :: l2).get? l1.length = some x := by
  induction l1 with
  | nil => rfl
  | cons a t ih => simpa using ih

theorem ite_ne_self (new cur : String) :
    (if new ≠ cur then new else cur) = new := by
  by_cases h : new = cur <;> simp [h]

theorem decide_ne_ite (new cur : String) :
    decide (new ≠ (if new ≠ cur then new else cur)) = false := by
  rw [ite_ne_self]
  simp

theorem stepAgentWith_error (st : LoopState) (i : Nat) (a : Agent)
    (env : CallEnv) {w : SafeOut} {e : String} (hw : w.result = .error e) :
    stepAgentWith st i a env w =
      { currentContent := st.currentContent
        contentEvolution := st.contentEvolution
        agentResults := st.agentResults ++ [{ agentName := a.name
                                              agentRole := a.role
                                              result := none
                                              error := some e
                                              processingTime := 0
                                              contentModified := false
                                              sequencePosition := i + 1 }]
        allImprovements := st.allImprovements
        stats := updateAgentStats st.stats a.name false 0
        fs := w.fs
        evs := st.evs ++ w.evs } := by
  unfold stepAgentWith
  rw [hw]

theorem stepAgentWith_ok (st : LoopState) (i : Nat) (a : Agent)
    (env : CallEnv) {w : SafeOut} {result : WrappedResult}
    (hw : w.result = .ok result) :
    stepAgentWith st i a env w =
      { currentContent := jsNewContent result st.currentContent
        contentEvolution :=
          if jsNewContent result st.currentContent ≠ st.currentContent then
            st.contentEvolution ++
              [{ stage := a.name
                 content := jsNewContent result st.currentContent
                 wordCount := some (jsWordCount (jsNewContent result st.currentContent)) }]
          else st.contentEvolution
        agentResults := st.agentResults ++ [{ agentName := a.name
                                              agentRole := a.role
                                              result := some result
                                              error := none
                                              processingTime := env.time
                                              contentModified := false
                                              sequencePosition := i + 1 }]
        allImprovements := match result.improvements with
          | some l => st.allImprovements ++ l
          | none => st.allImprovements
        stats := updateAgentStats st.stats a.name true env.time
        fs := w.fs
        evs := st.evs ++ w.evs } := by
  unfold stepAgentWith
  rw [hw]
  simp only [ite_ne_self, decide_ne_ite]
  simp

theorem stepAgent_def (fp : FPath) (st : LoopState) (i : Nat) (a : Agent)
    (env : CallEnv) :
    stepAgent fp st i a env =
      stepAgentWith st i a env (runAgentSafely a fp st.currentContent env st.fs) := rfl

theorem statLookup_statInsert (stats : AgentStats) (name : String) (v : AgentStat) :
    statLookup (statInsert stats name v) name = some v := by
  induction stats with
  | nil => simp [statInsert, statLookup]
  | cons h t ih =>
      obtain ⟨n, s⟩ := h
      by_cases hn : n = name <;> simp [statInsert, statLookup, hn, ih]

theorem updateAgentStats_failed_count (stats : AgentStats) (name : String) :
    (statLookup (updateAgentStats stats name false 0) name).map (fun s => s.failed) =
      some (((statLookup stats name).getD AgentStat.init).failed + 1) := by
  unfold updateAgentStats
  simp [statLookup_statInsert]

theorem updateAgentStats_failed_keeps_successful (stats : AgentStats) (name : String) :
    (statLookup (updateAgentStats stats name false 0) name).map (fun s => s.successful) =
      some (((statLookup stats name).getD AgentStat.init).successful) := by
  unfold updateAgentStats
  simp [statLookup_statInsert]

theorem runAgents_append (fp : FPath) (l1 l2 : List (Agent × CallEnv)) :
    ∀ (st : LoopState) (i : Nat),
      runAgents fp st i (l1 ++ l2) =
        runAgents fp (runAgents fp st i l1) (i + l1.length) l2 := by
  induction l1 with
  | nil => intro st i; simp [runAgents]
  | cons p t ih =>
      intro st i
      have h1 : runAgents fp st i ((p :: t) ++ l2) =
          runAgents fp (stepAgent fp st i p.1 p.2) (i + 1) (t ++ l2) := rfl
      have h2 : runAgents fp st i (p :: t) =
          runAgents fp (stepAgent fp st i p.1 p.2) (i + 1) t := rfl
      rw [h1, h2, ih, show i + (p :: t).length = i + 1 + t.length by simp; omega]

theorem stepAgent_one_result (fp : FPath) (st : LoopState) (i : Nat) (a : Agent)
    (env : CallEnv) :
    ∃ r, (stepAgent fp st i a env).agentResults = st.agentResults ++ [r] ∧
      r.agentName = a.name ∧ r.agentRole = a.role ∧
      r.sequencePosition = i + 1 ∧ r.contentModified = false := by
  rw [stepAgent_def]
  cases hw : (runAgentSafely a fp st.currentContent env st.fs).result with
  | ok result =>
      rw [stepAgentWith_ok st i a env hw]
      exact ⟨_, rfl, rfl, rfl, rfl, rfl⟩
  | error e =>
      rw [stepAgentWith_error st i a env hw]
      exact ⟨_, rfl, rfl, rfl, rfl, rfl⟩

theorem runAgents_results_length (fp : FPath) (ps : List (Agent × CallEnv)) :
    ∀ (st : LoopState) (i : Nat),
      (runAgents fp st i ps).agentResults.length =
        st.agentResults.length + ps.length := by
  induction ps with
  | nil => intro st i; simp [runAgents]
  | cons p t ih =>
      intro st i
      simp only [runAgents, List.length_cons]
      rw [ih]
      obtain ⟨r, hr, -, -, -, -⟩ := stepAgent_one_result fp st i p.1 p.2
      rw [hr]
      simp
      omega

theorem runAgents_seq_positions (fp : FPath) (ps : List (Agent × CallEnv)) :
    ∀ (st : LoopState) (i : Nat),
      (runAgents fp st i ps).agentResults.map (fun r => r.sequencePosition) =
        st.agentResults.map (fun r => r.sequencePosition) ++
          (List.range ps.length).map (fun k => i + 1 + k) := by
  induction ps with
  | nil => intro st i; simp [runAgents]
  | cons p t ih =>
      intro st i
      simp only [runAgents, List.length_cons]
      rw [ih]
      obtain ⟨r, hr, -, -, hseq, -⟩ := stepAgent_one_result fp st i p.1 p.2
      rw [hr]
      simp [hseq, List.range_succ_eq_map, List.map_map, Function.comp,
        Nat.add_assoc, Nat.add_comm, Nat.add_left_comm]

theorem runAgents_flags_false (fp : FPath) (ps : List (Agent × CallEnv)) :
    ∀ (st : LoopState) (i : Nat),
      (∀ r ∈ st.agentResults, r.contentModified = false) →
      ∀ r ∈ (runAgents fp st i ps).agentResults, r.contentModified = false := by
  induction ps with
  | nil => intro st i h; simpa [runAgents] using h
  | cons p t ih =>
      intro st i h
      simp only [runAgents]
      apply ih
      intro r hr
      obtain ⟨r0, hr0, -, -, -, hflag⟩ := stepAgent_one_result fp st i p.1 p.2
      rw [hr0] at hr
      rcases List.mem_append.mp hr with h1 | h2
      · exact h r h1
      · rw [List.mem_singleton.mp h2]
        exact hflag

theorem stepAgent_evs (fp : FPath) (st : LoopState) (i : Nat) (a : Agent)
    (env : CallEnv) :
    (stepAgent fp st i a env).evs =
      st.evs ++ (runAgentSafely a fp st.currentContent env st.fs).evs := by
  rw [stepAgent_def]
  cases hw : (runAgentSafely a fp st.currentContent env st.fs).result with
  | ok result => rw [stepAgentWith_ok st i a env hw]
  | error e => rw [stepAgentWith_error st i a env hw]

theorem stepAgent_fs (fp : FPath) (st : LoopState) (i : Nat) (a : Agent)
    (env : CallEnv) :
    (stepAgent fp st i a env).fs =
      (runAgentSafely a fp st.currentContent env st.fs).fs := by
  rw [stepAgent_def]
  cases hw : (runAgentSafely a fp st.currentContent env st.fs).result with
  | ok result => rw [stepAgentWith_ok st i a env hw]
  | error e => rw [stepAgentWith_error st i a env hw]

theorem auth_ne_temp (s n : String) : FPath.auth s ≠ FPath.temp n :=
  fun h => FPath.noConfusion h

theorem fsWrite_ne (fs : FS) (p : FPath) (c : String) (q : FPath) (h : q ≠ p) :
    fsWrite fs p c q = fs q := by simp [fsWrite, h]

theorem fsRemove_ne (fs : FS) (p q : FPath) (h : q ≠ p) :
    fsRemove fs p q = fs q := by simp [fsRemove, h]

theorem applyEffect_ne (fs : FS) (p : FPath) (eff : FileEffect) (q : FPath)
    (h : q ≠ p) : applyEffect fs p eff q = fs q := by
  cases eff <;> simp [applyEffect, fsWrite, fsRemove, h]

theorem fsRemoveTempDir_auth (fs : FS) (s : String) :
    fsRemoveTempDir fs (FPath.auth s) = fs (FPath.auth s) := rfl

theorem runAgentSafely_evs_cases (a : Agent) (fp : FPath) (c : String)
    (env : CallEnv) (fs : FS) :
    (runAgentSafely a fp c env fs).evs = [.removeTempDir, .agentCall fp c] ∨
    (runAgentSafely a fp c env fs).evs =
      [.write (.temp env.tempName), .agentCall (.temp env.tempName) c,
       .read (.temp env.tempName), .removeFile (.temp env.tempName)] ∨
    (runAgentSafely a fp c env fs).evs =
      [.write (.temp env.tempName), .agentCall (.temp env.tempName) c,
       .removeTempDir, .agentCall fp c] := by
  cases hiso : env.isolationFails with
  | true =>
      cases hraw : a.raw c with
      | ok r => left; simp [runAgentSafely, fallbackCall, hiso, hraw]
      | error e => left; simp [runAgentSafely, fallbackCall, hiso, hraw]
  | false =>
      cases hraw : a.raw c with
      | ok r => right; left; simp [runAgentSafely, fallbackCall, hiso, hraw]
      | error e => right; right; simp [runAgentSafely, fallbackCall, hiso, hraw]

theorem runAgentSafely_fs_auth (a : Agent) (fp : FPath) (c : String)
    (env : CallEnv) (fs : FS) (s : String) (hiso : env.isolationFails = false) :
    (runAgentSafely a fp c env fs).fs (FPath.auth s) = fs (FPath.auth s) := by
  cases hraw : a.raw c with
  | ok r =>
      simp only [runAgentSafely, hiso, Bool.false_eq_true, if_false, hraw]
      rw [fsRemove_ne _ _ _ (auth_ne_temp s env.tempName),
        applyEffect_ne _ _ _ _ (auth_ne_temp s env.tempName),
        fsWrite_ne _ _ _ _ (auth_ne_temp s env.tempName)]
  | error e =>
      simp only [runAgentSafely, hiso, Bool.false_eq_true, if_false, hraw,
        fallbackCall]
      rw [fsRemoveTempDir_auth, fsWrite_ne _ _ _ _ (auth_ne_temp s env.tempName)]

theorem runAgentSafely_keep (a : Agent) (c : String) (env : CallEnv)
    (r : AgentRaw) (hiso : env.isolationFails = false) (hraw : a.raw c = .ok r)
    (heff : a.effect c = .keep) :
    ∀ (fp : FPath) (fs : FS), runAgentSafely a fp c env fs =
      { result := .ok (withContent r c),
        fs := fsRemove (fsWrite fs (FPath.temp env.tempName) c) (FPath.temp env.tempName),
        evs := [.write (.temp env.tempName), .agentCall (.temp env.tempName) c,
                .read (.temp env.tempName), .removeFile (.temp env.tempName)] } := by
  intro fp fs
  simp [runAgentSafely, hiso, hraw, heff, applyEffect, fsWrite]

theorem runAgentSafely_writes (a : Agent) (c : String) (env : CallEnv)
    (r : AgentRaw) (out : String) (hiso : env.isolationFails = false)
    (hraw : a.raw c = .ok r) (heff : a.effect c = .write out) :
    ∀ (fp : FPath) (fs : FS), runAgentSafely a fp c env fs =
      { result := .ok (withContent r out),
        fs := fsRemove (fsWrite (fsWrite fs (FPath.temp env.tempName) c)
          (FPath.temp env.tempName) out) (FPath.temp env.tempName),
        evs := [.write (.temp env.tempName), .agentCall (.temp env.tempName) c,
                .read (.temp env.tempName), .removeFile (.temp env.tempName)] } := by
  intro fp fs
  simp [runAgentSafely, hiso, hraw, heff, applyEffect, fsWrite]

theorem runAgentSafely_delete (a : Agent) (c : String) (env : CallEnv)
    (r : AgentRaw) (hiso : env.isolationFails = false) (hraw : a.raw c = .ok r)
    (heff : a.effect c = .delete) :
    ∀ (fp : FPath) (fs : FS), runAgentSafely a fp c env fs =
      { result := .ok (withContent r c),
        fs := fsRemove (fsRemove (fsWrite fs (FPath.temp env.tempName) c)
          (FPath.temp env.tempName)) (FPath.temp env.tempName),
        evs := [.write (.temp env.tempName), .agentCall (.temp env.tempName) c,
                .read (.temp env.tempName), .removeFile (.temp env.tempName)] } := by
  intro fp fs
  simp [runAgentSafely, hiso, hraw, heff, applyEffect, fsRemove, fsWrite]

theorem runAgentSafely_rawError (a : Agent) (c : String) (env : CallEnv)
    (e : String) (hiso : env.isolationFails = false) (hraw : a.raw c = .error e) :
    ∀ (fp : FPath) (fs : FS), runAgentSafely a fp c env fs =
      { result := .error ("Agent " ++ a.name ++ " failed: " ++ e),
        fs := fsRemoveTempDir (fsWrite fs (FPath.temp env.tempName) c),
        evs := [.write (.temp env.tempName), .agentCall (.temp env.tempName) c,
                .removeTempDir, .agentCall fp c] } := by
  intro fp fs
  simp [runAgentSafely, fallbackCall, hiso, hraw]

theorem runAgentSafely_isoFail_ok (a : Agent) (c : String) (env : CallEnv)
    (r : AgentRaw) (hiso : env.isolationFails = true) (hraw : a.raw c = .ok r) :
    ∀ (fp : FPath) (fs : FS), runAgentSafely a fp c env fs =
      { result := .ok (withContent r c),
        fs := applyEffect (fsRemoveTempDir fs) fp (a.effect c),
        evs := [.removeTempDir, .agentCall fp c] } := by
  intro fp fs
  simp [runAgentSafely, fallbackCall, hiso, hraw]

theorem runAgentSafely_isoFail_error (a : Agent) (c : String) (env : CallEnv)
    (e : String) (hiso : env.isolationFails = true) (hraw : a.raw c = .error e) :
    ∀ (fp : FPath) (fs : FS), runAgentSafely a fp c env fs =
      { result := .error ("Agent " ++ a.name ++ " failed: " ++ e),
        fs := fsRemoveTempDir fs,
        evs := [.removeTempDir, .agentCall fp c] } := by
  intro fp fs
  simp [runAgentSafely, fallbackCall, hiso, hraw]

theorem runAgentSafely_evs_no_fallback (a : Agent) (c : String) (env : CallEnv)
    (r : AgentRaw) (hiso : env.isolationFails = false) (hraw : a.raw c = .ok r) :
    ∀ (fp : FPath) (fs : FS), (runAgentSafely a fp c env fs).evs =
      [.write (.temp env.tempName), .agentCall (.temp env.tempName) c,
       .read (.temp env.tempName), .removeFile (.temp env.tempName)] := by
  intro fp fs
  simp [runAgentSafely, hiso, hraw]

theorem runAgents_results_extend (fp : FPath) (ps : List (Agent × CallEnv)) :
    ∀ (st : LoopState) (i : Nat), ∃ d,
      (runAgents fp st i ps).agentResults = st.agentResults ++ d ∧
      d.length = ps.length := by
  induction ps with
  | nil => intro st i; exact ⟨[], by simp [runAgents], rfl⟩
  | cons p t ih =>
      intro st i
      obtain ⟨d, hd, hlen⟩ := ih (stepAgent fp st i p.1 p.2) (i + 1)
      obtain ⟨r, hr, -, -, -, -⟩ := stepAgent_one_result fp st i p.1 p.2
      refine ⟨r :: d, ?_, by simp [hlen]⟩
      have hc : runAgents fp st i (p :: t) =
          runAgents fp (stepAgent fp st i p.1 p.2) (i + 1) t := rfl
      rw [hc, hd, hr]
      simp

theorem runAgents_frame (fp : FPath) (s : String) (ps : List (Agent × CallEnv)) :
    ∀ (st : LoopState) (i : Nat),
      (∀ pe ∈ ps, pe.2.isolationFails = false) →
      (runAgents fp st i ps).fs (FPath.auth s) = st.fs (FPath.auth s) := by
  induction ps with
  | nil => intro st i _; rfl
  | cons p t ih =>
      intro st i h
      have hc : runAgents fp st i (p :: t) =
          runAgents fp (stepAgent fp st i p.1 p.2) (i + 1) t := rfl
      rw [hc, ih _ _ (fun pe hpe => h pe (List.mem_cons_of_mem p hpe)),
        stepAgent_fs,
        runAgentSafely_fs_auth _ _ _ _ _ _ (h p (List.mem_cons_self p t))]

theorem runAgents_evs_targets (fp : FPath) (ps : List (Agent × CallEnv)) :
    ∀ (st : LoopState) (i : Nat), ∃ d,
      (runAgents fp st i ps).evs = st.evs ++ d ∧
      (∀ p, Ev.read p ∈ d → ∃ n, p = FPath.temp n) ∧
      (∀ p, Ev.write p ∈ d → ∃ n, p = FPath.temp n) ∧
      (∀ p, Ev.removeFile p ∈ d → ∃ n, p = FPath.temp n) ∧
      ((∀ pe ∈ ps, pe.2.isolationFails = false ∧
          ∀ c, (pe.1.raw c).isOk = true) →
        ∀ h c, Ev.agentCall h c ∈ d → ∃ n, h = FPath.temp n) := by
  induction ps with
  | nil =>
      intro st i
      exact ⟨[], by simp [runAgents], by simp, by simp, by simp, by simp⟩
  | cons p t ih =>
      intro st i
      obtain ⟨d, hd, hrd, hwr, hrm, hcall⟩ := ih (stepAgent fp st i p.1 p.2) (i + 1)
      have hc : runAgents fp st i (p :: t) =
          runAgents fp (stepAgent fp st i p.1 p.2) (i + 1) t := rfl
      refine ⟨(runAgentSafely p.1 fp st.currentContent p.2 st.fs).evs ++ d,
        ?_, ?_, ?_, ?_, ?_⟩
      · rw [hc, hd, stepAgent_evs, List.append_assoc]
      · intro q hq
        rcases List.mem_append.mp hq with h1 | h2
        · rcases runAgentSafely_evs_cases p.1 fp st.currentContent p.2 st.fs with
            hs | hs | hs <;> rw [hs] at h1 <;> simp at h1 <;>
            first
            | exact ⟨p.2.tempName, h1⟩
            | exact absurd h1 (by simp)
        · exact hrd q h2
      · intro q hq
        rcases List.mem_append.mp hq with h1 | h2
        · rcases runAgentSafely_evs_cases p.1 fp st.currentContent p.2 st.fs with
            hs | hs | hs <;> rw [hs] at h1 <;> simp at h1 <;>
            first
            | exact ⟨p.2.tempName, h1⟩
            | exact absurd h1 (by simp)
        · exact hwr q h2
      · intro q hq
        rcases List.mem_append.mp hq with h1 | h2
        · rcases runAgentSafely_evs_cases p.1 fp st.currentContent p.2 st.fs with
            hs | hs | hs <;> rw [hs] at h1 <;> simp at h1 <;>
            first
            | exact ⟨p.2.tempName, h1⟩
            | exact absurd h1 (by simp)
        · exact hrm q h2
      · intro hgood h c hq
        rcases List.mem_append.mp hq with h1 | h2
        · obtain ⟨hiso, hok⟩ := hgood p (List.mem_cons_self p t)
          have hok2 := hok st.currentContent
          cases hraw : p.1.raw st.currentContent with
          | error e =>
              rw [hraw] at hok2
              simp [Except.isOk, Except.toBool] at hok2
          | ok r =>
              rw [runAgentSafely_evs_no_fallback p.1 st.currentContent p.2 r
                hiso hraw fp st.fs] at h1
              simp at h1
              exact ⟨p.2.tempName, h1.1⟩
        · exact hcall (fun pe hpe => hgood pe (List.mem_cons_of_mem p hpe)) h c h2

theorem firstNonzeroScore_getD (o : Option Int) (rest : List (Option Int)) :
    (firstNonzeroScore (o :: rest)).getD 75 =
      jsOrScore o ((firstNonzeroScore rest).getD 75) := by
  cases o with
  | none => rfl
  | some s => by_cases hs : s = 0 <;> simp [firstNonzeroScore, jsOrScore, hs]

theorem resultScore_eq (m : Metadata) :
    resultScoreCode m = perResultScoreAmended m := by
  unfold perResultScoreAmended
  rw [firstNonzeroScore_getD, firstNonzeroScore_getD, firstNonzeroScore_getD,
    firstNonzeroScore_getD]
  rfl

theorem collect_foldl (rs : List AgentInvocationResult) :
    ∀ acc : List Int,
      rs.foldl (fun acc r =>
        match r.result with
        | some w =>
            match w.enhancedMetadata with
            | some m =>
                let s := resultScoreCode m
                if 0 < s then acc ++ [s] else acc
            | none => acc
        | none => acc) acc = acc ++ collectedScoresAmended rs := by
  induction rs with
  | nil => intro acc; simp [collectedScoresAmended]
  | cons r t ih =>
      intro acc
      simp only [List.foldl_cons]
      cases hr : r.result with
      | none =>
          rw [ih]
          simp [collectedScoresAmended, List.filterMap_cons, hr]
      | some w =>
          cases hm : w.enhancedMetadata with
          | none =>
              rw [ih]
              simp [collectedScoresAmended, List.filterMap_cons, hr, hm]
          | some m =>
              by_cases hs : 0 < resultScoreCode m
              · simp only [hr, hm, hs, if_pos]
                rw [ih]
                simp [collectedScoresAmended, List.filterMap_cons, hr, hm,
                  resultScore_eq m ▸ hs, resultScore_eq]
              · simp only [hr, hm, hs, if_neg]
                rw [ih]
                simp [collectedScoresAmended, List.filterMap_cons, hr, hm,
                  resultScore_eq m ▸ hs, resultScore_eq]

theorem length_filter_partition (l : List TeamFile) :
    (l.filter (fun f => f.needsEnhancement)).length +
      (l.filter (fun f => !f.needsEnhancement)).length = l.length := by
  induction l with
  | nil => rfl
  | cons f t ih =>
      by_cases hf : f.needsEnhancement <;> simp [List.filter_cons, hf] <;> omega

theorem execStep_counts (cwd : String) (agents : List Agent)
    (envOf : Nat → Nat → CallEnv) (files : List (Nat × FileInfo)) :
    ∀ acc : List Enhancement × List (String × String) × AgentStats × FS × List Ev,
      (files.foldl (execStep cwd agents envOf) acc).1.length +
        (files.foldl (execStep cwd agents envOf) acc).2.1.length =
      acc.1.length + acc.2.1.length + files.length := by
  induction files with
  | nil => intro acc; simp
  | cons jf t ih =>
      intro acc
      simp only [List.foldl_cons, List.length_cons]
      rw [ih]
      rcases acc with ⟨enhs, errs, stats, fs, evs⟩
      unfold execStep
      cases hp : processFileSequentially jf.2 cwd
          (agents.enum.map (fun p => (p.2, envOf jf.1 p.1))) stats fs <;>
        simp [hp] <;> omega

/-! ### Claim theorems -/

/-- C7: for every document processed, the Agent Invocation Result list has
exactly one entry per configured agent, with entry k carrying sequence
position k+1, regardless of how many agent invocations failed. -/
theorem oneResultPerAgentWithPositions (fileInfo : FileInfo) (cwd : String)
    (pairs : List (Agent × CallEnv)) (stats : AgentStats) (fs : FS) (o : String)
    (hread : fs (FPath.auth (cwd ++ "/" ++ fileInfo.path)) = some o) :
    ∃ out, processFileSequentially fileInfo cwd pairs stats fs = .ok out ∧
      out.enhancement.agentResults.length = pairs.length ∧
      out.enhancement.agentResults.map (fun r => r.sequencePosition) =
        (List.range pairs.length).map (fun k => k + 1) := by
  simp only [processFileSequentially]
  rw [hread]
  refine ⟨_, rfl, ?_, ?_⟩
  · simpa [initLoopState] using runAgents_results_length
      (FPath.auth (cwd ++ "/" ++ fileInfo.path)) pairs
      (initLoopState o stats fs (FPath.auth (cwd ++ "/" ++ fileInfo.path))) 0
  · have h := runAgents_seq_positions
      (FPath.auth (cwd ++ "/" ++ fileInfo.path)) pairs
      (initLoopState o stats fs (FPath.auth (cwd ++ "/" ++ fileInfo.path))) 0
    simp only [initLoopState] at h
    simpa [Nat.add_comm] using h

/-- Witness for C7 at a concrete two-agent run whose second agent throws. -/
theorem oneResultPerAgentWithPositions_witness :
    fsSingle (FPath.auth "cwd/d.md") "x" (FPath.auth ("cwd" ++ "/" ++ "d.md")) =
      some "x" ∧
    (∃ out, processFileSequentially { path := "d.md", title := "D" } "cwd"
        [(keepAgent "A", env0), (throwAgent "T", envIso)] []
        (fsSingle (FPath.auth "cwd/d.md") "x") = .ok out ∧
      out.enhancement.agentResults.length = 2 ∧
      out.enhancement.agentResults.map (fun r => r.sequencePosition) =
        (List.range 2).map (fun k => k + 1)) :=
  ⟨by decide, oneResultPerAgentWithPositions { path := "d.md", title := "D" }
    "cwd" [(keepAgent "A", env0), (throwAgent "T", envIso)] []
    (fsSingle (FPath.auth "cwd/d.md") "x") "x" (by decide)⟩

/-- C10: every Agent Invocation Result ever recorded carries
contentModified = false, because the orchestrator advances currentContent
before computing the flag; content modification is observable only through
the Content Snapshot sequence. -/
theorem contentModifiedFlagAlwaysFalse (fileInfo : FileInfo) (cwd : String)
    (pairs : List (Agent × CallEnv)) (stats : AgentStats) (fs : FS) (o : String)
    (hread : fs (FPath.auth (cwd ++ "/" ++ fileInfo.path)) = some o) :
    ∃ out, processFileSequentially fileInfo cwd pairs stats fs = .ok out ∧
      ∀ r ∈ out.enhancement.agentResults, r.contentModified = false := by
  simp only [processFileSequentially]
  rw [hread]
  refine ⟨_, rfl, ?_⟩
  exact runAgents_flags_false (FPath.auth (cwd ++ "/" ++ fileInfo.path)) pairs
    (initLoopState o stats fs (FPath.auth (cwd ++ "/" ++ fileInfo.path))) 0
    (by simp [initLoopState])

/-- Witness for C10 at a run whose agent does change the content (the
snapshot gains an entry, the flag is still false). -/
theorem contentModifiedFlagAlwaysFalse_witness :
    fsSingle (FPath.auth "cwd/d.md") "x" (FPath.auth ("cwd" ++ "/" ++ "d.md")) =
      some "x" ∧
    (∃ out, processFileSequentially { path := "d.md", title := "D" } "cwd"
        [(writeAgent "B" "new", env0)] []
        (fsSingle (FPath.auth "cwd/d.md") "x") = .ok out ∧
      ∀ r ∈ out.enhancement.agentResults, r.contentModified = false) :=
  ⟨by decide, contentModifiedFlagAlwaysFalse { path := "d.md", title := "D" }
    "cwd" [(writeAgent "B" "new", env0)] []
    (fsSingle (FPath.auth "cwd/d.md") "x") "x" (by decide)⟩

/-- C3 counterexample: a successful result whose quality score field is
present with value 0 is scored 75 by the code (JS || treats 0 as falsy and
falls through to the default), while the claim as stated scores it 0. -/
theorem zeroScoreUsesDefaultNotZero :
    calculateConsolidatedRAGScore [scoredResult { ragScore := some 0 }] = 75 ∧
    claimedConsolidatedScore [scoredResult { ragScore := some 0 }] = 0 ∧
    calculateConsolidatedRAGScore [scoredResult { ragScore := some 0 }] ≠
      claimedConsolidatedScore [scoredResult { ragScore := some 0 }] := by
  decide

/-- C3 amended: the consolidated score equals the rounded mean, over
successful results that carry an enhancedMetadata payload, of the first
present nonzero score alias (ragScore, chunkingScore, validationScore,
seoScore; defaulting to 75 when all are absent or zero), keeping only
positive per-result scores, and is 75 when nothing was collected; the claim
scenarios 80/60 to 70 and no-scores to 75 hold. -/
theorem consolidatedScoreCharacterization :
    (∀ rs, calculateConsolidatedRAGScore rs = consolidatedScoreAmended rs) ∧
    calculateConsolidatedRAGScore
      [scoredResult { ragScore := some 80 },
       scoredResult { ragScore := some 60 }] = 70 ∧
    calculateConsolidatedRAGScore [scoredResult {}] = 75 ∧
    calculateConsolidatedRAGScore [] = 75 := by
  refine ⟨?_, by decide, by decide, by decide⟩
  intro rs
  unfold calculateConsolidatedRAGScore consolidatedScoreAmended
  rw [collect_foldl rs []]
  simp

/-- C4: the wrapper returns the caller's content unless the agent wrote a
different value into its isolated working copy; in particular an unreadable
(deleted) working copy after a successful run, and the fallback path, both
return the input content unchanged. -/
theorem wrapperPreservesCallerContent (a : Agent) (fp : FPath) (c : String)
    (env : CallEnv) (fs : FS) :
    (∀ w, (runAgentSafely a fp c env fs).result = .ok w → w.content ≠ c →
      env.isolationFails = false ∧ a.effect c = .write w.content) ∧
    (∀ r, env.isolationFails = false → a.raw c = .ok r → a.effect c = .delete →
      (runAgentSafely a fp c env fs).result = .ok (withContent r c)) ∧
    (∀ r, env.isolationFails = true → a.raw c = .ok r →
      (runAgentSafely a fp c env fs).result = .ok (withContent r c)) := by
  refine ⟨?_, ?_, ?_⟩
  · intro w hok hne
    cases hiso : env.isolationFails with
    | true =>
        cases hraw : a.raw c with
        | ok r =>
            rw [runAgentSafely_isoFail_ok a c env r hiso hraw fp fs] at hok
            simp only [Except.ok.injEq] at hok
            rw [← hok] at hne
            simp [withContent] at hne
        | error e =>
            rw [runAgentSafely_isoFail_error a c env e hiso hraw fp fs] at hok
            simp at hok
    | false =>
        cases hraw : a.raw c with
        | error e =>
            rw [runAgentSafely_rawError a c env e hiso hraw fp fs] at hok
            simp at hok
        | ok r =>
            cases heff : a.effect c with
            | keep =>
                rw [runAgentSafely_keep a c env r hiso hraw heff fp fs] at hok
                simp only [Except.ok.injEq] at hok
                rw [← hok] at hne
                simp [withContent] at hne
            | delete =>
                rw [runAgentSafely_delete a c env r hiso hraw heff fp fs] at hok
                simp only [Except.ok.injEq] at hok
                rw [← hok] at hne
                simp [withContent] at hne
            | write w2 =>
                rw [runAgentSafely_writes a c env r w2 hiso hraw heff fp fs] at hok
                simp only [Except.ok.injEq] at hok
                refine ⟨rfl, ?_⟩
                rw [← hok]
                simpa [withContent] using heff
  · intro r hiso hraw heff
    rw [runAgentSafely_delete a c env r hiso hraw heff fp fs]
  · intro r hiso hraw
    rw [runAgentSafely_isoFail_ok a c env r hiso hraw fp fs]

/-- Witness for C4: a deleting agent and a fallback run both return the
input content; a writing agent is the only way the content differs. -/
theorem wrapperPreservesCallerContent_witness :
    (runAgentSafely (deleteAgent "D") (FPath.auth "p") "c" env0
      (fun _ => none)).result = .ok (withContent {} "c") ∧
    (runAgentSafely (keepAgent "K") (FPath.auth "p") "c" envIso
      (fun _ => none)).result = .ok (withContent {} "c") ∧
    (env0.isolationFails = false ∧
      (writeAgent "W" "zz").effect "c" = .write "zz") :=
  ⟨(wrapperPreservesCallerContent (deleteAgent "D")
      (FPath.auth "p") "c" env0 (fun _ => none)).2.1 {} rfl rfl rfl,
   (wrapperPreservesCallerContent (keepAgent "K") (FPath.auth "p") "c" envIso
      (fun _ => none)).2.2 {} rfl rfl,
   (wrapperPreservesCallerContent (writeAgent "W" "zz") (FPath.auth "p") "c"
      env0 (fun _ => none)).1
     (withContent {} "zz") rfl (by decide)⟩

/-- C5: when isolation setup fails the wrapper performs exactly one direct
agent invocation, against the original content value with no read of any
store, surfaces a successful result unchanged, and wraps a fallback failure
as a single error tagged with the agent's name. -/
theorem isolationFailureFallbackOnce (a : Agent) (fp : FPath) (c : String)
    (env : CallEnv) (fs : FS) (hiso : env.isolationFails = true) :
    (runAgentSafely a fp c env fs).evs = [.removeTempDir, .agentCall fp c] ∧
    (∀ r, a.raw c = .ok r →
      (runAgentSafely a fp c env fs).result = .ok (withContent r c)) ∧
    (∀ e, a.raw c = .error e →
      (runAgentSafely a fp c env fs).result =
        .error ("Agent " ++ a.name ++ " failed: " ++ e)) := by
  refine ⟨?_, ?_, ?_⟩
  · cases hraw : a.raw c with
    | ok r => rw [runAgentSafely_isoFail_ok a c env r hiso hraw fp fs]
    | error e => rw [runAgentSafely_isoFail_error a c env e hiso hraw fp fs]
  · intro r hraw
    rw [runAgentSafely_isoFail_ok a c env r hiso hraw fp fs]
  · intro e hraw
    rw [runAgentSafely_isoFail_error a c env e hiso hraw fp fs]

/-- Witness for C5 at a throwing agent under isolation failure. -/
theorem isolationFailureFallbackOnce_witness :
    (runAgentSafely (throwAgent "T") (FPath.auth "p") "c" envIso
        (fun _ => none)).evs =
      [.removeTempDir, .agentCall (FPath.auth "p") "c"] ∧
    (∀ r, (throwAgent "T").raw "c" = .ok r →
      (runAgentSafely (throwAgent "T") (FPath.auth "p") "c" envIso
        (fun _ => none)).result = .ok (withContent r "c")) ∧
    (∀ e, (throwAgent "T").raw "c" = .error e →
      (runAgentSafely (throwAgent "T") (FPath.auth "p") "c" envIso
        (fun _ => none)).result =
        .error ("Agent " ++ (throwAgent "T").name ++ " failed: " ++ e)) :=
  isolationFailureFallbackOnce (throwAgent "T") (FPath.auth "p") "c" envIso
    (fun _ => none) rfl

/-- C8: a batch with an empty document list or an empty agent list fails
fast with the configuration error: the structured result is the fatal shape
(no statistics object exists), nothing is read, written or invoked, and the
only audit entry captured before the error is raised is the logger's own
initialization entry (the catch handler then logs the fatal error). -/
theorem emptyBatchFailsFast (cwd : String) (agents : List Agent)
    (envOf : Nat → Nat → CallEnv) (processedFiles : List FileInfo) (fs : FS)
    (h : processedFiles = [] ∨ agents = []) :
    (execute cwd agents envOf processedFiles fs).result =
      .fatal (if processedFiles.length = 0 then invalidFilesMsg else noAgentsMsg) ∧
    (execute cwd agents envOf processedFiles fs).log =
      [initLogEntry,
       fatalLogEntry (if processedFiles.length = 0 then invalidFilesMsg else noAgentsMsg)] ∧
    (execute cwd agents envOf processedFiles fs).evs = [] ∧
    (execute cwd agents envOf processedFiles fs).fs = fs := by
  rcases h with rfl | rfl
  · simp [execute]
  · by_cases hf : processedFiles.length = 0 <;> simp [execute, hf]

/-- Witness for C8 at an empty document list. -/
theorem emptyBatchFailsFast_witness :
    (execute "cwd" [keepAgent "A"] (fun _ _ => env0) [] (fun _ => none)).result =
      .fatal invalidFilesMsg ∧
    (execute "cwd" [keepAgent "A"] (fun _ _ => env0) [] (fun _ => none)).log =
      [initLogEntry, fatalLogEntry invalidFilesMsg] ∧
    (execute "cwd" [keepAgent "A"] (fun _ _ => env0) [] (fun _ => none)).evs = [] ∧
    (execute "cwd" [keepAgent "A"] (fun _ _ => env0) [] (fun _ => none)).fs =
      (fun _ => none) :=
  emptyBatchFailsFast "cwd" [keepAgent "A"] (fun _ _ => env0) [] (fun _ => none)
    (Or.inl rfl)

/-- C1: when the wrapper invocation for an agent throws, the orchestrator
records exactly one failed Agent Invocation Result carrying the failure
reason at that agent's position, increments that agent's failure statistic,
leaves the current content and snapshot sequence unchanged, continues with
the remaining agents, and the document still completes as a successful
Document Enhancement containing one entry per configured agent. -/
theorem agentFailureRecordedAndIsolated (fileInfo : FileInfo) (cwd : String)
    (pre post : List (Agent × CallEnv)) (a : Agent) (env : CallEnv)
    (stats : AgentStats) (fs : FS) (o e : String)
    (hread : fs (FPath.auth (cwd ++ "/" ++ fileInfo.path)) = some o)
    (hfail : (runAgentSafely a (FPath.auth (cwd ++ "/" ++ fileInfo.path))
      (midState fileInfo cwd pre stats fs o).currentContent env
      (midState fileInfo cwd pre stats fs o).fs).result = .error e) :
    (stepAgent (FPath.auth (cwd ++ "/" ++ fileInfo.path))
        (midState fileInfo cwd pre stats fs o) pre.length a env).currentContent =
      (midState fileInfo cwd pre stats fs o).currentContent ∧
    (stepAgent (FPath.auth (cwd ++ "/" ++ fileInfo.path))
        (midState fileInfo cwd pre stats fs o) pre.length a env).contentEvolution =
      (midState fileInfo cwd pre stats fs o).contentEvolution ∧
    (statLookup (stepAgent (FPath.auth (cwd ++ "/" ++ fileInfo.path))
        (midState fileInfo cwd pre stats fs o) pre.length a env).stats
        a.name).map (fun s => s.failed) =
      some (((statLookup (midState fileInfo cwd pre stats fs o).stats
        a.name).getD AgentStat.init).failed + 1) ∧
    (∃ out, processFileSequentially fileInfo cwd (pre ++ (a, env) :: post)
        stats fs = .ok out ∧
      out.enhancement.agentResults.get? pre.length = some
        { agentName := a.name
          agentRole := a.role
          result := none
          error := some e
          processingTime := 0
          contentModified := false
          sequencePosition := pre.length + 1 } ∧
      out.enhancement.agentResults.length = pre.length + 1 + post.length) := by
  have hsd : stepAgent (FPath.auth (cwd ++ "/" ++ fileInfo.path))
      (midState fileInfo cwd pre stats fs o) pre.length a env =
      stepAgentWith (midState fileInfo cwd pre stats fs o) pre.length a env
        (runAgentSafely a (FPath.auth (cwd ++ "/" ++ fileInfo.path))
          (midState fileInfo cwd pre stats fs o).currentContent env
          (midState fileInfo cwd pre stats fs o).fs) := rfl
  have hstep := stepAgentWith_error (midState fileInfo cwd pre stats fs o)
    pre.length a env hfail
  refine ⟨?_, ?_, ?_, ?_⟩
  · rw [hsd, hstep]
  · rw [hsd, hstep]
  · rw [hsd, hstep]
    simpa using updateAgentStats_failed_count
      (midState fileInfo cwd pre stats fs o).stats a.name
  · simp only [processFileSequentially]
    rw [hread]
    refine ⟨_, rfl, ?_, ?_⟩
    · have hdec : runAgents (FPath.auth (cwd ++ "/" ++ fileInfo.path))
          (initLoopState o stats fs (FPath.auth (cwd ++ "/" ++ fileInfo.path)))
          0 (pre ++ (a, env) :: post) =
          runAgents (FPath.auth (cwd ++ "/" ++ fileInfo.path))
            (stepAgent (FPath.auth (cwd ++ "/" ++ fileInfo.path))
              (midState fileInfo cwd pre stats fs o) (0 + pre.length) a env)
            (0 + pre.length + 1) post := by
        rw [runAgents_append]
        rfl
      have hmidlen : (midState fileInfo cwd pre stats fs o).agentResults.length =
          pre.length := by
        simpa [midState, initLoopState] using runAgents_results_length
          (FPath.auth (cwd ++ "/" ++ fileInfo.path)) pre
          (initLoopState o stats fs (FPath.auth (cwd ++ "/" ++ fileInfo.path))) 0
      obtain ⟨d, hd, -⟩ := runAgents_results_extend
        (FPath.auth (cwd ++ "/" ++ fileInfo.path)) post
        (stepAgent (FPath.auth (cwd ++ "/" ++ fileInfo.path))
          (midState fileInfo cwd pre stats fs o) (0 + pre.length) a env)
        (0 + pre.length + 1)
      simp only [Nat.zero_add] at hdec hd
      rw [hdec, hd, hsd, hstep]
      simp only [List.append_assoc, List.cons_append, List.nil_append]
      rw [← hmidlen]
      exact get?_append_cons _ _ _
    · show (runAgents (FPath.auth (cwd ++ "/" ++ fileInfo.path))
          (initLoopState o stats fs (FPath.auth (cwd ++ "/" ++ fileInfo.path)))
          0 (pre ++ (a, env) :: post)).agentResults.length =
        pre.length + 1 + post.length
      rw [runAgents_results_length]
      simp [initLoopState]
      omega

/-- Witness for C1 at a concrete run of a single throwing agent. -/
theorem agentFailureRecordedAndIsolated_witness :
    fsSingle (FPath.auth "cwd/d.md") "x" (FPath.auth ("cwd" ++ "/" ++ "d.md")) =
      some "x" ∧
    ((stepAgent (FPath.auth ("cwd" ++ "/" ++ "d.md"))
        (midState { path := "d.md", title := "D" } "cwd" [] []
          (fsSingle (FPath.auth "cwd/d.md") "x") "x") 0 (throwAgent "T")
        envIso).currentContent =
      (midState { path := "d.md", title := "D" } "cwd" [] []
        (fsSingle (FPath.auth "cwd/d.md") "x") "x").currentContent ∧
    (stepAgent (FPath.auth ("cwd" ++ "/" ++ "d.md"))
        (midState { path := "d.md", title := "D" } "cwd" [] []
          (fsSingle (FPath.auth "cwd/d.md") "x") "x") 0 (throwAgent "T")
        envIso).contentEvolution =
      (midState { path := "d.md", title := "D" } "cwd" [] []
        (fsSingle (FPath.auth "cwd/d.md") "x") "x").contentEvolution ∧
    (statLookup (stepAgent (FPath.auth ("cwd" ++ "/" ++ "d.md"))
        (midState { path := "d.md", title := "D" } "cwd" [] []
          (fsSingle (FPath.auth "cwd/d.md") "x") "x") 0 (throwAgent "T")
        envIso).stats (throwAgent "T").name).map (fun s => s.failed) =
      some (((statLookup (midState { path := "d.md", title := "D" } "cwd" [] []
        (fsSingle (FPath.auth "cwd/d.md") "x") "x").stats
        (throwAgent "T").name).getD AgentStat.init).failed + 1) ∧
    (∃ out, processFileSequentially { path := "d.md", title := "D" } "cwd"
        ([] ++ (throwAgent "T", envIso) :: []) []
        (fsSingle (FPath.auth "cwd/d.md") "x") = .ok out ∧
      out.enhancement.agentResults.get? 0 = some
        { agentName := (throwAgent "T").name
          agentRole := (throwAgent "T").role
          result := none
          error := some "Agent T failed: boom"
          processingTime := 0
          contentModified := false
          sequencePosition := 0 + 1 } ∧
      out.enhancement.agentResults.length = 0 + 1 + 0)) :=
  ⟨by decide, agentFailureRecordedAndIsolated { path := "d.md", title := "D" }
    "cwd" [] [] (throwAgent "T") envIso [] (fsSingle (FPath.auth "cwd/d.md") "x")
    "x" "Agent T failed: boom" (by decide) rfl⟩

/-- C2 counterexample: an agent that writes the empty string into its
isolated copy returns content `""`, which differs from the `"x y"` it
received, yet the orchestrator appends no Content Snapshot entry, because
the JS truthiness test `result.content && ...` discards empty content. -/
theorem emptyContentChangeNotSnapshotted :
    (processFileSequentially { path := "d.md", title := "D" } "cwd"
        [(writeAgent "E" "", env0)] []
        (fsSingle (FPath.auth "cwd/d.md") "x y")).toOption.map
      (fun out => (out.enhancement.contentEvolution,
        out.enhancement.agentResults.map
          (fun r => r.result.map (fun w => w.content)))) =
      some ([{ stage := "original", content := "x y" }], [some ""]) ∧
    ("" : String) ≠ "x y" := by
  decide

/-- C2 amended: with the truthiness proviso (an adopted content must be
non-empty), the claim's scenario holds: for agents [A, B, C] where A and C
leave their isolated copy untouched and report no restructured content while
B writes a non-empty value differing from its input, the snapshot is exactly
[original, B's stage] in that order, the final content is B's output, and C
is invoked with B's output as its content argument (visible in the trace). -/
theorem snapshotScenarioOnlyMiddleAgentChanges (fileInfo : FileInfo)
    (cwd : String) (A B C : Agent) (eA eB eC : CallEnv) (stats : AgentStats)
    (fs : FS) (o b2 : String) (rA rB rC : AgentRaw)
    (hread : fs (FPath.auth (cwd ++ "/" ++ fileInfo.path)) = some o)
    (hIA : eA.isolationFails = false) (hIB : eB.isolationFails = false)
    (hIC : eC.isolationFails = false)
    (hAraw : A.raw o = .ok rA) (hAeff : A.effect o = .keep)
    (hArs : rA.restructuredContent = none)
    (hBraw : B.raw o = .ok rB) (hBeff : B.effect o = .write b2)
    (hb1 : b2 ≠ "") (hb2 : b2 ≠ o)
    (hCraw : C.raw b2 = .ok rC) (hCeff : C.effect b2 = .keep)
    (hCrs : rC.restructuredContent = none) :
    ∃ out, processFileSequentially fileInfo cwd [(A, eA), (B, eB), (C, eC)]
        stats fs = .ok out ∧
      out.enhancement.contentEvolution =
        [{ stage := "original", content := o },
         { stage := B.name, content := b2, wordCount := some (jsWordCount b2) }] ∧
      out.enhancement.finalContent = b2 ∧
      out.evs = [.read (FPath.auth (cwd ++ "/" ++ fileInfo.path)),
        .write (.temp eA.tempName), .agentCall (.temp eA.tempName) o,
        .read (.temp eA.tempName), .removeFile (.temp eA.tempName),
        .write (.temp eB.tempName), .agentCall (.temp eB.tempName) o,
        .read (.temp eB.tempName), .removeFile (.temp eB.tempName),
        .write (.temp eC.tempName), .agentCall (.temp eC.tempName) b2,
        .read (.temp eC.tempName), .removeFile (.temp eC.tempName)] := by
  simp only [processFileSequentially]
  rw [hread]
  refine ⟨_, rfl, ?_, ?_, ?_⟩ <;>
    simp [runAgents, stepAgent_def, initLoopState,
      runAgentSafely_keep A o eA rA hIA hAraw hAeff,
      runAgentSafely_writes B o eB rB b2 hIB hBraw hBeff,
      runAgentSafely_keep C b2 eC rC hIC hCraw hCeff,
      stepAgentWith, jsNewContent, withContent, hArs, hCrs, hb1, hb2]

/-- Witness for C2 at a concrete [keep, write, keep] run. -/
theorem snapshotScenarioOnlyMiddleAgentChanges_witness :
    fsSingle (FPath.auth "cwd/d.md") "x" (FPath.auth ("cwd" ++ "/" ++ "d.md")) =
      some "x" ∧
    (∃ out, processFileSequentially { path := "d.md", title := "D" } "cwd"
        [(keepAgent "A", env0), (writeAgent "B" "zz", env0), (keepAgent "C", env0)]
        [] (fsSingle (FPath.auth "cwd/d.md") "x") = .ok out ∧
      out.enhancement.contentEvolution =
        [{ stage := "original", content := "x" },
         { stage := (writeAgent "B" "zz").name, content := "zz",
           wordCount := some (jsWordCount "zz") }] ∧
      out.enhancement.finalContent = "zz" ∧
      out.evs = [.read (FPath.auth ("cwd" ++ "/" ++ "d.md")),
        .write (.temp env0.tempName), .agentCall (.temp env0.tempName) "x",
        .read (.temp env0.tempName), .removeFile (.temp env0.tempName),
        .write (.temp env0.tempName), .agentCall (.temp env0.tempName) "x",
        .read (.temp env0.tempName), .removeFile (.temp env0.tempName),
        .write (.temp env0.tempName), .agentCall (.temp env0.tempName) "zz",
        .read (.temp env0.tempName), .removeFile (.temp env0.tempName)]) :=
  ⟨by decide, snapshotScenarioOnlyMiddleAgentChanges
    { path := "d.md", title := "D" } "cwd" (keepAgent "A") (writeAgent "B" "zz")
    (keepAgent "C") env0 env0 env0 [] (fsSingle (FPath.auth "cwd/d.md") "x")
    "x" "zz" {} {} {} (by decide) rfl rfl rfl rfl rfl rfl rfl rfl
    (by decide) (by decide) rfl rfl rfl⟩

/-- C6 counterexample: when isolation setup fails, the fallback hands the
agent the authoritative path as its handle; an agent that writes its handle
file (as the repository's chunking agent does) then overwrites the
authoritative document, so re-reading it yields different bytes. -/
theorem fallbackWritesAuthoritativePath :
    (processFileSequentially { path := "d.md", title := "D" } "cwd"
        [(writeAgent "W" "HACKED", envIso)] []
        (fsSingle (FPath.auth "cwd/d.md") "orig")).toOption.map
      (fun out => out.fs (FPath.auth "cwd/d.md")) = some (some "HACKED") ∧
    fsSingle (FPath.auth "cwd/d.md") "orig" (FPath.auth "cwd/d.md") =
      some "orig" ∧
    (some "HACKED" : Option String) ≠ some "orig" := by
  decide

/-- C6 amended: the orchestration core reads the authoritative document
exactly once, before any agent invocation, and its writes and removals
target only temporary working copies; when additionally no wrapper
invocation takes the fallback path (isolation succeeds and the agent's
analyzeContent does not throw), every agent is handed only temporary-copy
handles and the authoritative bytes are unchanged afterwards. -/
theorem orchestrationCoreFrameConditions (fileInfo : FileInfo) (cwd : String)
    (pairs : List (Agent × CallEnv)) (stats : AgentStats) (fs : FS) (o : String)
    (hread : fs (FPath.auth (cwd ++ "/" ++ fileInfo.path)) = some o) :
    ∃ out, processFileSequentially fileInfo cwd pairs stats fs = .ok out ∧
      out.evs.head? = some (.read (FPath.auth (cwd ++ "/" ++ fileInfo.path))) ∧
      (out.evs.filter
        (fun ev => ev = .read (FPath.auth (cwd ++ "/" ++ fileInfo.path)))).length = 1 ∧
      (∀ p, Ev.write p ∈ out.evs → ∃ n, p = FPath.temp n) ∧
      (∀ p, Ev.removeFile p ∈ out.evs → ∃ n, p = FPath.temp n) ∧
      ((∀ pe ∈ pairs, pe.2.isolationFails = false ∧
          ∀ c, (pe.1.raw c).isOk = true) →
        (∀ h c, Ev.agentCall h c ∈ out.evs → ∃ n, h = FPath.temp n) ∧
        out.fs (FPath.auth (cwd ++ "/" ++ fileInfo.path)) = some o) := by
  simp only [processFileSequentially]
  rw [hread]
  obtain ⟨d, hd, hrd, hwr, hrm, hcall⟩ := runAgents_evs_targets
    (FPath.auth (cwd ++ "/" ++ fileInfo.path)) pairs
    (initLoopState o stats fs (FPath.auth (cwd ++ "/" ++ fileInfo.path))) 0
  simp only [initLoopState] at hd
  refine ⟨_, rfl, ?_, ?_, ?_, ?_, ?_⟩
  · show (runAgents (FPath.auth (cwd ++ "/" ++ fileInfo.path))
        (initLoopState o stats fs (FPath.auth (cwd ++ "/" ++ fileInfo.path)))
        0 pairs).evs.head? = _
    simp only [initLoopState]
    rw [hd]
    rfl
  · show ((runAgents (FPath.auth (cwd ++ "/" ++ fileInfo.path))
        (initLoopState o stats fs (FPath.auth (cwd ++ "/" ++ fileInfo.path)))
        0 pairs).evs.filter
        (fun ev => ev = .read (FPath.auth (cwd ++ "/" ++ fileInfo.path)))).length = 1
    simp only [initLoopState]
    rw [hd]
    have hnil : d.filter
        (fun ev => ev = Ev.read (FPath.auth (cwd ++ "/" ++ fileInfo.path))) = [] := by
      apply List.filter_eq_nil_iff.mpr
      intro a ha
      cases a with
      | read q =>
          simp only [decide_eq_true_eq]
          intro hq
          obtain ⟨n, hn⟩ := hrd q ha
          rw [hn] at hq
          exact FPath.noConfusion (Ev.read.inj hq)
      | write q => simp
      | removeFile q => simp
      | removeTempDir => simp
      | agentCall h c => simp
    simp [List.filter_cons, hnil]
  · intro p hp
    show ∃ n, p = FPath.temp n
    rw [show (runAgents (FPath.auth (cwd ++ "/" ++ fileInfo.path))
        (initLoopState o stats fs (FPath.auth (cwd ++ "/" ++ fileInfo.path)))
        0 pairs).evs = Ev.read (FPath.auth (cwd ++ "/" ++ fileInfo.path)) :: d
      from hd] at hp
    rcases List.mem_cons.mp hp with h1 | h2
    · exact absurd h1 (by simp)
    · exact hwr p h2
  · intro p hp
    show ∃ n, p = FPath.temp n
    rw [show (runAgents (FPath.auth (cwd ++ "/" ++ fileInfo.path))
        (initLoopState o stats fs (FPath.auth (cwd ++ "/" ++ fileInfo.path)))
        0 pairs).evs = Ev.read (FPath.auth (cwd ++ "/" ++ fileInfo.path)) :: d
      from hd] at hp
    rcases List.mem_cons.mp hp with h1 | h2
    · exact absurd h1 (by simp)
    · exact hrm p h2
  · intro hgood
    constructor
    · intro h c hp
      rw [show (runAgents (FPath.auth (cwd ++ "/" ++ fileInfo.path))
          (initLoopState o stats fs (FPath.auth (cwd ++ "/" ++ fileInfo.path)))
          0 pairs).evs = Ev.read (FPath.auth (cwd ++ "/" ++ fileInfo.path)) :: d
        from hd] at hp
      rcases List.mem_cons.mp hp with h1 | h2
      · exact absurd h1 (by simp)
      · exact hcall hgood h c h2
    · show (runAgents (FPath.auth (cwd ++ "/" ++ fileInfo.path))
          (initLoopState o stats fs (FPath.auth (cwd ++ "/" ++ fileInfo.path)))
          0 pairs).fs (FPath.auth (cwd ++ "/" ++ fileInfo.path)) = some o
      rw [runAgents_frame (FPath.auth (cwd ++ "/" ++ fileInfo.path))
        (cwd ++ "/" ++ fileInfo.path) pairs
        (initLoopState o stats fs (FPath.auth (cwd ++ "/" ++ fileInfo.path))) 0
        (fun pe hpe => (hgood pe hpe).1)]
      exact hread

/-- Witness for C6 at a concrete compliant run. -/
theorem orchestrationCoreFrameConditions_witness :
    fsSingle (FPath.auth "cwd/d.md") "x" (FPath.auth ("cwd" ++ "/" ++ "d.md")) =
      some "x" ∧
    (∃ out, processFileSequentially { path := "d.md", title := "D" } "cwd"
        [(writeAgent "B" "zz", env0)] []
        (fsSingle (FPath.auth "cwd/d.md") "x") = .ok out ∧
      out.evs.head? = some (.read (FPath.auth ("cwd" ++ "/" ++ "d.md"))) ∧
      (out.evs.filter
        (fun ev => ev = .read (FPath.auth ("cwd" ++ "/" ++ "d.md")))).length = 1 ∧
      (∀ p, Ev.write p ∈ out.evs → ∃ n, p = FPath.temp n) ∧
      (∀ p, Ev.removeFile p ∈ out.evs → ∃ n, p = FPath.temp n) ∧
      ((∀ pe ∈ [(writeAgent "B" "zz", env0)], pe.2.isolationFails = false ∧
          ∀ c, (pe.1.raw c).isOk = true) →
        (∀ h c, Ev.agentCall h c ∈ out.evs → ∃ n, h = FPath.temp n) ∧
        out.fs (FPath.auth ("cwd" ++ "/" ++ "d.md")) = some "x")) :=
  ⟨by decide, orchestrationCoreFrameConditions { path := "d.md", title := "D" }
    "cwd" [(writeAgent "B" "zz", env0)] [] (fsSingle (FPath.auth "cwd/d.md") "x")
    "x" (by decide)⟩

theorem execute_ok_counts (cwd : String) (agents : List Agent)
    (envOf : Nat → Nat → CallEnv) (files : List FileInfo) (fs : FS)
    (s0 : Summary) (e0 : List Enhancement) (r0 : List (String × String))
    (st0 : AgentStats)
    (hres : (execute cwd agents envOf files fs).result = .ok s0 e0 r0 st0) :
    s0.successful = e0.length ∧ s0.errors = r0.length ∧
      e0.length + r0.length = files.length := by
  unfold execute at hres
  by_cases h1 : files.length = 0
  · rw [if_pos h1] at hres
    simp at hres
  · rw [if_neg h1] at hres
    by_cases h2 : agents.length = 0
    · rw [if_pos h2] at hres
      simp at hres
    · rw [if_neg h2] at hres
      injection hres with hs he hr hst
      subst he hr
      refine ⟨?_, ?_, ?_⟩
      · rw [← hs]
        rfl
      · rw [← hs]
        rfl
      · have h := execStep_counts cwd agents envOf files.enum
          ([], [], initializeAgentStats agents, fs, [])
        simpa using h

/-- C9 counterexample: a batch of two discovered files where one is skipped;
after the coordinator merges the skipped-file information, the summary
reports successful = 1, failed = 0 and totalFiles = 2, so
successful + failed differs from totalFiles. -/
theorem skippedFilesBreakSummaryCount :
    (execSummary (processDocuments "cwd" [keepAgent "A"] (fun _ _ => env0)
        [{ path := "a.md", title := "A", needsEnhancement := true },
         { path := "b.md", title := "B", needsEnhancement := false }]
        (fsSingle (FPath.auth "cwd/a.md") "hello"))).map
      (fun s => (s.successful, s.failed, s.totalFiles)) =
      some (1, some 0, 2) ∧
    1 + 0 ≠ 2 := by
  decide

/-- C9 amended: at the task level successful + failed equals the summary's
totalFiles, and after the team coordinator merges skipped-file information
the invariant becomes successful + failed + skipped = totalFiles (the early
no-enhancement exit included). -/
theorem batchCountsWithSkipped (cwd : String) (agents : List Agent)
    (envOf : Nat → Nat → CallEnv) (processedFiles : List TeamFile) (fs : FS)
    (s : Summary) (e : List Enhancement) (r : List (String × String))
    (st : AgentStats)
    (hok : processDocuments cwd agents envOf processedFiles fs = .ok s e r st) :
    s.successful + s.errors + s.skipped.getD 0 = s.totalFiles := by
  simp only [processDocuments] at hok
  by_cases hempty :
      (processedFiles.filter (fun f => f.needsEnhancement)).length = 0
  · rw [if_pos hempty] at hok
    injection hok with h1 h2 h3 h4
    rw [← h1]
    have hp := length_filter_partition processedFiles
    show 0 + 0 + (some (processedFiles.filter
      (fun f => !f.needsEnhancement)).length).getD 0 = processedFiles.length
    simp only [Option.getD_some]
    omega
  · rw [if_neg hempty] at hok
    cases hres : (execute cwd agents envOf
        ((processedFiles.filter (fun f => f.needsEnhancement)).map toFileInfo)
        fs).result with
    | fatal msg =>
        rw [hres] at hok
        simp at hok
    | ok s0 e0 r0 st0 =>
        rw [hres] at hok
        injection hok with h1 h2 h3 h4
        obtain ⟨ha, hb, hc⟩ := execute_ok_counts cwd agents envOf
          ((processedFiles.filter (fun f => f.needsEnhancement)).map toFileInfo)
          fs s0 e0 r0 st0 hres
        rw [← h1]
        have hp := length_filter_partition processedFiles
        simp only [List.length_map] at hc
        simp
        omega

/-- Witness for C9 at the coordinator's early exit (one skipped file). -/
theorem batchCountsWithSkipped_witness :
    processDocuments "cwd" [keepAgent "A"] (fun _ _ => env0)
      [{ path := "b.md", title := "B", needsEnhancement := false }]
      (fun _ => none) =
      .ok { totalFiles := 1, successful := 0, skipped := some 1, errors := 0,
            averageRagScore := 0, agentCount := 1,
            message := some earlyMessage } [] [] [] ∧
    (0 : Nat) + 0 + (some 1 : Option Nat).getD 0 = 1 :=
  ⟨by decide, batchCountsWithSkipped "cwd" [keepAgent "A"] (fun _ _ => env0)
    [{ path := "b.md", title := "B", needsEnhancement := false }]
    (fun _ => none)
    { totalFiles := 1, successful := 0, skipped := some 1, errors := 0,
      averageRagScore := 0, agentCount := 1, message := some earlyMessage }
    [] [] [] (by decide)⟩
